import Mathlib

/-!
Shallow embedding of the PuLP Gurobi solver adapter (`pulp/apis/gurobi_api.py`).

Conventions of the embedding:

* Python strings are embedded as `List Char` (abbreviated `Str`), so that the
  line/token manipulation of the solution-file reader can be reasoned about by
  structural induction.
* Numeric values that the adapter merely copies around (variable values, bounds,
  objective coefficients, duals, slacks) are embedded as `ℚ`.  The adapter
  performs no arithmetic on them, so only their identity matters.
* The floating-point values travelling through the CLI solution/warm-start file
  format are embedded by their decimal token (a `Str`): CPython's
  `str`/`float` pair round-trips a float exactly through its shortest repr, so
  a float written to a file and read back is faithfully represented by the
  written token.  `pyFloat` models which tokens CPython's `float()` accepts.
* Fallible Python code (statements that can raise) is embedded with `Except`.
* The side effects of `GUROBI_CMD.actualSolve` (file writes, subprocess call,
  result pushes onto the problem object) are embedded as an event trace.
-/

/-- Python string embedded as a list of characters. -/
abbrev Str := List Char

/-- The result-status enum of the modeling layer (`pulp.constants.LpStatus*`). -/
inductive LpStatus where
  | NotSolved
  | Optimal
  | Infeasible
  | Unbounded
  | Undefined
  deriving DecidableEq, Repr

/-- Variable categories of the modeling layer (`constants.LpContinuous` /
`constants.LpInteger`). -/
inductive VarCat where
  | Continuous
  | Integer
  deriving DecidableEq, Repr

/-- Termination status code `GRB.LOADED` of the native engine (documented value 1). -/
def GRB.LOADED : Int := 1

/-- Termination status code `GRB.OPTIMAL` of the native engine (documented value 2). -/
def GRB.OPTIMAL : Int := 2

/-- Termination status code `GRB.INFEASIBLE` of the native engine (documented value 3). -/
def GRB.INFEASIBLE : Int := 3

/-- Termination status code `GRB.INF_OR_UNBD` of the native engine (documented value 4). -/
def GRB.INF_OR_UNBD : Int := 4

/-- Termination status code `GRB.UNBOUNDED` of the native engine (documented value 5). -/
def GRB.UNBOUNDED : Int := 5

/-- Termination status code `GRB.CUTOFF` of the native engine (documented value 6). -/
def GRB.CUTOFF : Int := 6

/-- Termination status code `GRB.ITERATION_LIMIT` of the native engine (documented value 7). -/
def GRB.ITERATION_LIMIT : Int := 7

/-- Termination status code `GRB.NODE_LIMIT` of the native engine (documented value 8). -/
def GRB.NODE_LIMIT : Int := 8

/-- Termination status code `GRB.TIME_LIMIT` of the native engine (documented value 9). -/
def GRB.TIME_LIMIT : Int := 9

/-- Termination status code `GRB.SOLUTION_LIMIT` of the native engine (documented value 10). -/
def GRB.SOLUTION_LIMIT : Int := 10

/-- Termination status code `GRB.INTERRUPTED` of the native engine (documented value 11). -/
def GRB.INTERRUPTED : Int := 11

/-- Termination status code `GRB.NUMERIC` of the native engine (documented value 12). -/
def GRB.NUMERIC : Int := 12

/-- The sentinel `GRB.INFINITY` of the native engine (1e100), used for missing
variable bounds in `GUROBI.buildSolverModel`. -/
def GRB.INFINITY : ℚ := 10 ^ 100

/-- The literal dictionary `gurobiLpStatus` built at the top of
`GUROBI.findSolutionValues` (gurobi_api.py lines 95-105), in source order. -/
def gurobiLpStatusDict : List (Int × LpStatus) :=
  [(GRB.OPTIMAL, .Optimal),
   (GRB.INFEASIBLE, .Infeasible),
   (GRB.INF_OR_UNBD, .Infeasible),
   (GRB.UNBOUNDED, .Unbounded),
   (GRB.ITERATION_LIMIT, .NotSolved),
   (GRB.NODE_LIMIT, .NotSolved),
   (GRB.TIME_LIMIT, .NotSolved),
   (GRB.SOLUTION_LIMIT, .NotSolved),
   (GRB.INTERRUPTED, .NotSolved),
   (GRB.NUMERIC, .NotSolved)]

/-- Python `dict.get(key, default)` on an association list with `Int` keys. -/
def statusDictGet (k : Int) (default : LpStatus) : List (Int × LpStatus) → LpStatus
  | [] => default
  | p :: rest => if p.1 = k then p.2 else statusDictGet k default rest

/-- The status translation of `GUROBI.findSolutionValues`:
`gurobiLpStatus.get(solutionStatus, LpStatusUndefined)` (gurobi_api.py line 111). -/
def gurobiLpStatus (solutionStatus : Int) : LpStatus :=
  statusDictGet solutionStatus .Undefined gurobiLpStatusDict

/-- Claim C1: `GUROBI.findSolutionValues` maps every native Gurobi termination
status totally onto the adapter's `Status` enum: `OPTIMAL` to `Optimal`;
`INFEASIBLE` and `INF_OR_UNBD` to `Infeasible`; `UNBOUNDED` to `Unbounded`;
`ITERATION_LIMIT`, `NODE_LIMIT`, `TIME_LIMIT`, `SOLUTION_LIMIT`, `INTERRUPTED`
and `NUMERIC` to `NotSolved`; and every other status value to `Undefined`. -/
theorem gurobi_status_map_total (s : Int) :
    (gurobiLpStatus GRB.OPTIMAL = .Optimal) ∧
    (gurobiLpStatus GRB.INFEASIBLE = .Infeasible) ∧
    (gurobiLpStatus GRB.INF_OR_UNBD = .Infeasible) ∧
    (gurobiLpStatus GRB.UNBOUNDED = .Unbounded) ∧
    (gurobiLpStatus GRB.ITERATION_LIMIT = .NotSolved) ∧
    (gurobiLpStatus GRB.NODE_LIMIT = .NotSolved) ∧
    (gurobiLpStatus GRB.TIME_LIMIT = .NotSolved) ∧
    (gurobiLpStatus GRB.SOLUTION_LIMIT = .NotSolved) ∧
    (gurobiLpStatus GRB.INTERRUPTED = .NotSolved) ∧
    (gurobiLpStatus GRB.NUMERIC = .NotSolved) ∧
    (s ∉ ([GRB.OPTIMAL, GRB.INFEASIBLE, GRB.INF_OR_UNBD, GRB.UNBOUNDED,
           GRB.ITERATION_LIMIT, GRB.NODE_LIMIT, GRB.TIME_LIMIT,
           GRB.SOLUTION_LIMIT, GRB.INTERRUPTED, GRB.NUMERIC] : List Int) →
      gurobiLpStatus s = .Undefined) := by
  refine ⟨by decide, by decide, by decide, by decide, by decide, by decide,
          by decide, by decide, by decide, by decide, ?_⟩
  intro hs
  simp only [List.mem_cons, List.not_mem_nil, or_false, not_or] at hs
  obtain ⟨h1, h2, h3, h4, h5, h6, h7, h8, h9, h10⟩ := hs
  have g1 : GRB.OPTIMAL ≠ s := fun h => h1 h.symm
  have g2 : GRB.INFEASIBLE ≠ s := fun h => h2 h.symm
  have g3 : GRB.INF_OR_UNBD ≠ s := fun h => h3 h.symm
  have g4 : GRB.UNBOUNDED ≠ s := fun h => h4 h.symm
  have g5 : GRB.ITERATION_LIMIT ≠ s := fun h => h5 h.symm
  have g6 : GRB.NODE_LIMIT ≠ s := fun h => h6 h.symm
  have g7 : GRB.TIME_LIMIT ≠ s := fun h => h7 h.symm
  have g8 : GRB.SOLUTION_LIMIT ≠ s := fun h => h8 h.symm
  have g9 : GRB.INTERRUPTED ≠ s := fun h => h9 h.symm
  have g10 : GRB.NUMERIC ≠ s := fun h => h10 h.symm
  simp only [gurobiLpStatus, gurobiLpStatusDict, statusDictGet]
  rw [if_neg g1, if_neg g2, if_neg g3, if_neg g4, if_neg g5,
      if_neg g6, if_neg g7, if_neg g8, if_neg g9, if_neg g10]

/-- Witness for claim C1: the native code `GRB.CUTOFF = 6` is in none of the
dictionary rows, and indeed maps to `Undefined`. -/
theorem gurobi_status_map_total_witness :
    gurobiLpStatus GRB.CUTOFF = .Undefined :=
  (gurobi_status_map_total GRB.CUTOFF).2.2.2.2.2.2.2.2.2.2 (by decide)

/-- A native variable created by `Model.addVar` in `GUROBI.buildSolverModel`:
its vtype (`GRB.CONTINUOUS` / `GRB.INTEGER`). -/
inductive GurobiVtype where
  | CONTINUOUS
  | INTEGER
  deriving DecidableEq, Repr

/-- A native Gurobi variable as created by
`lp.solverModel.addVar(lowBound, upBound, vtype=varType, obj=obj, name=var.name)`
(gurobi_api.py lines 176-178). -/
structure GurobiVar where
  lb : ℚ
  ub : ℚ
  vtype : GurobiVtype
  obj : ℚ
  name : Str
  deriving DecidableEq, Repr

/-- A modeling-layer `LpVariable` as seen by this adapter: its name, optional
bounds, category, post-solve value `varValue` and reduced cost `dj`, the dirty
flag `isModified`, and the attached native handle `solverVar`. -/
structure PVar where
  name : Str
  lowBound : Option ℚ := none
  upBound : Option ℚ := none
  cat : VarCat := .Continuous
  varValue : Option ℚ := none
  dj : Option ℚ := none
  isModified : Bool := false
  solverVar : Option GurobiVar := none
  deriving DecidableEq, Repr

/-- A modeling-layer `LpConstraint` as seen by `GUROBI.findSolutionValues`:
its post-solve slack and dual `pi`, and the dirty flag `modified`. -/
structure PConstraint where
  slack : Option ℚ := none
  pi : Option ℚ := none
  modified : Bool := false
  deriving DecidableEq, Repr

/-- The slice of the modeling-layer `LpProblem` that `GUROBI.findSolutionValues`
reads and writes: `lp.variables()` in order, `lp.constraints.values()` in
order, the assigned status, and the `resolveOK` flag. -/
structure LpProblem where
  vars : List PVar
  constrs : List PConstraint
  status : LpStatus := .NotSolved
  resolveOK : Bool := false
  deriving DecidableEq, Repr

/-- The native model attributes that `GUROBI.findSolutionValues` reads:
`model.Status`, `model.getAttr(GRB.Attr.IsMIP)`, and the per-variable /
per-constraint attribute lists `X`, `Slack`, `RC`, `Pi` (each aligned with
`model.getVars()` resp. `model.getConstrs()`). -/
structure GurobiModel where
  status : Int
  isMIP : Bool
  xVals : List ℚ
  slackVals : List ℚ
  rcVals : List ℚ
  piVals : List ℚ
  deriving DecidableEq, Repr

/-- `var.isModified = False`, executed for every variable at the top of
`GUROBI.findSolutionValues` (gurobi_api.py lines 109-110). -/
def clearModified (v : PVar) : PVar := { v with isModified := false }

/-- Python's `for a, b in zip(xs, ys): a.f = b` idiom: update the first
`min |xs| |ys|` elements of `xs` with the paired element of `ys`, keeping the
remaining elements of `xs` unchanged. -/
def zipAssign (f : α → β → α) : List α → List β → List α
  | xs, [] => xs
  | [], _ :: _ => []
  | x :: xs, y :: ys => f x y :: zipAssign f xs ys

/-- `GUROBI.findSolutionValues` (gurobi_api.py lines 90-132): translate the
native termination status, clear every variable's dirty flag, set `resolveOK`,
assign the status; when not optimal return at once, otherwise copy the native
solution attributes onto the problem (`X` onto the variables, `Slack` onto the
constraints, and -- only when the native model is not a MIP -- `RC` onto the
variables and `Pi` onto the constraints). -/
def findSolutionValues (model : GurobiModel) (lp : LpProblem) :
    LpStatus × LpProblem :=
  let lp1 : LpProblem :=
    { lp with resolveOK := true, vars := lp.vars.map clearModified }
  let status := gurobiLpStatus model.status
  let lp2 : LpProblem := { lp1 with status := status }
  if status ≠ LpStatus.Optimal then
    (status, lp2)
  else
    let vars2 := zipAssign (fun v x => { v with varValue := some x })
      lp2.vars model.xVals
    let constrs2 := zipAssign (fun c s => { c with slack := some s })
      lp2.constrs model.slackVals
    if model.isMIP then
      (status, { lp2 with vars := vars2, constrs := constrs2 })
    else
      let vars3 := zipAssign (fun v r => { v with dj := some r })
        vars2 model.rcVals
      let constrs3 := zipAssign (fun c p => { c with pi := some p })
        constrs2 model.piVals
      (status, { lp2 with vars := vars3, constrs := constrs3 })

/-- `lp.objective.get(var, 0.0)` (gurobi_api.py line 172): the objective is a
mapping from variables (identified here by their unique name) to coefficients,
defaulting to 0. -/
def objGet (objective : List (Str × ℚ)) (name : Str) : ℚ :=
  match objective.find? (fun p => p.1 == name) with
  | some p => p.2
  | none => 0

/-- The per-variable body of the loop in `GUROBI.buildSolverModel`
(gurobi_api.py lines 165-178): missing bounds become the `±GRB.INFINITY`
sentinels, the vtype is `INTEGER` exactly when the category is integer and the
`mip` flag is set, the objective coefficient defaults to 0, and the native
variable carries the variable's name. -/
def buildVar (mip : Bool) (objective : List (Str × ℚ)) (var : PVar) :
    GurobiVar :=
  let lowBound : ℚ :=
    match var.lowBound with
    | none => -GRB.INFINITY
    | some b => b
  let upBound : ℚ :=
    match var.upBound with
    | none => GRB.INFINITY
    | some b => b
  let obj := objGet objective var.name
  let varType :=
    if var.cat = VarCat.Integer ∧ mip = true then GurobiVtype.INTEGER
    else GurobiVtype.CONTINUOUS
  { lb := lowBound, ub := upBound, vtype := varType, obj := obj,
    name := var.name }

/-- The variable loop of `GUROBI.buildSolverModel`: each variable gets the
native variable created by `buildVar` attached as `var.solverVar`
(gurobi_api.py line 176). -/
def buildSolverModelVars (mip : Bool) (objective : List (Str × ℚ))
    (vars : List PVar) : List PVar :=
  vars.map (fun var => { var with solverVar := some (buildVar mip objective var) })


/-- Index-wise characterisation of `zipAssign`: positions covered by both lists
are updated, positions beyond the second list are kept unchanged. -/
theorem zipAssign_getElem? (f : α → β → α) :
    ∀ (xs : List α) (ys : List β) (i : ℕ),
      (zipAssign f xs ys)[i]? =
        match xs[i]?, ys[i]? with
        | some x, some y => some (f x y)
        | some x, none => some x
        | none, _ => none
  | [], [], i => by simp [zipAssign]
  | [], _ :: _, i => by simp [zipAssign]
  | x :: xs, [], i => by
      cases h : (x :: xs)[i]? <;> simp [zipAssign, h]
  | x :: xs, y :: ys, 0 => by simp [zipAssign]
  | x :: xs, y :: ys, (i + 1) => by
      simpa [zipAssign] using zipAssign_getElem? f xs ys i

/-- A `getElem?` hit implies the index is in bounds. -/
theorem getElem?_lt {l : List α} {i : ℕ} {a : α} (h : l[i]? = some a) :
    i < l.length := by
  rcases List.getElem?_eq_some.mp h with ⟨hh, _⟩
  exact hh

/-- An in-bounds index yields a `getElem?` hit. -/
theorem getElem?_of_lt {l : List α} {i : ℕ} (h : i < l.length) :
    ∃ a, l[i]? = some a :=
  ⟨l[i], List.getElem?_eq_getElem h⟩

/-- Claim C2: for every problem whose native termination status does not map to
`Optimal`, `GUROBI.findSolutionValues` clears the dirty flag on every variable,
assigns the mapped status onto the problem (and sets `resolveOK`), and returns
without writing any variable value, reduced cost, constraint slack, or dual:
the returned problem differs from the input problem only in those fields. -/
theorem findSolutionValues_not_optimal (model : GurobiModel) (lp : LpProblem)
    (h : gurobiLpStatus model.status ≠ LpStatus.Optimal) :
    findSolutionValues model lp =
      (gurobiLpStatus model.status,
       { lp with resolveOK := true,
                 status := gurobiLpStatus model.status,
                 vars := lp.vars.map clearModified }) := by
  simp only [findSolutionValues]
  rw [if_pos h]

/-- Witness for claim C2 at native status `GRB.INFEASIBLE` on a one-variable,
one-constraint problem carrying stale values from a prior solve: the dirty flag
is cleared, the status lands on the problem, and every value/dual/slack field
survives untouched. -/
theorem findSolutionValues_not_optimal_witness :
    findSolutionValues ⟨GRB.INFEASIBLE, false, [], [], [], []⟩
        ⟨[{ name := ['x'], varValue := some 5, dj := some 7, isModified := true }],
         [{ slack := some 1, pi := some 2, modified := true }],
         LpStatus.NotSolved, false⟩ =
      (LpStatus.Infeasible,
       ⟨[{ name := ['x'], varValue := some 5, dj := some 7, isModified := false }],
        [{ slack := some 1, pi := some 2, modified := true }],
        LpStatus.Infeasible, true⟩) :=
  findSolutionValues_not_optimal _ _ (by decide)

/-- Claim C3: with an `Optimal` status, `GUROBI.findSolutionValues` writes a
solution value onto every variable and a slack onto every constraint, while
reduced costs (`dj`) and duals (`pi`) are written exactly when the solved
native model is not a MIP; for a MIP they keep their prior contents. -/
theorem findSolutionValues_optimal (model : GurobiModel) (lp : LpProblem)
    (hopt : model.status = GRB.OPTIMAL)
    (hx : model.xVals.length = lp.vars.length)
    (hsl : model.slackVals.length = lp.constrs.length)
    (hrc : model.rcVals.length = lp.vars.length)
    (hpi : model.piVals.length = lp.constrs.length) :
    (findSolutionValues model lp).1 = LpStatus.Optimal ∧
    (∀ (i : ℕ) (v : PVar), lp.vars[i]? = some v →
      ∃ v' : PVar, (findSolutionValues model lp).2.vars[i]? = some v' ∧
        v'.varValue = model.xVals[i]? ∧
        (model.isMIP = true → v'.dj = v.dj) ∧
        (model.isMIP = false → v'.dj = model.rcVals[i]?)) ∧
    (∀ (i : ℕ) (c : PConstraint), lp.constrs[i]? = some c →
      ∃ c' : PConstraint, (findSolutionValues model lp).2.constrs[i]? = some c' ∧
        c'.slack = model.slackVals[i]? ∧
        (model.isMIP = true → c'.pi = c.pi) ∧
        (model.isMIP = false → c'.pi = model.piVals[i]?)) := by
  have hst : gurobiLpStatus model.status = LpStatus.Optimal := by
    rw [hopt]; decide
  rcases Bool.eq_false_or_eq_true model.isMIP with hM | hM
  · have hres : findSolutionValues model lp =
        (LpStatus.Optimal,
         { lp with
           resolveOK := true, status := LpStatus.Optimal,
           vars := zipAssign (fun v x => { v with varValue := some x })
                     (lp.vars.map clearModified) model.xVals,
           constrs := zipAssign (fun c s => { c with slack := some s })
                        lp.constrs model.slackVals }) := by
      simp [findSolutionValues, hst, hM]
    rw [hres]
    refine ⟨rfl, ?_, ?_⟩
    · intro i v hv
      have hi : i < lp.vars.length := getElem?_lt hv
      obtain ⟨xi, hxi⟩ := getElem?_of_lt (l := model.xVals) (i := i) (by omega)
      refine ⟨{ clearModified v with varValue := some xi }, ?_, ?_, ?_, ?_⟩
      · rw [zipAssign_getElem?, List.getElem?_map, hv, hxi]
        rfl
      · simp [clearModified, hxi]
      · intro _; simp [clearModified]
      · intro hcc; simp [hM] at hcc
    · intro i c hc
      have hi : i < lp.constrs.length := getElem?_lt hc
      obtain ⟨si, hsi⟩ := getElem?_of_lt (l := model.slackVals) (i := i) (by omega)
      refine ⟨{ c with slack := some si }, ?_, ?_, ?_, ?_⟩
      · rw [zipAssign_getElem?, hc, hsi]
      · simp [hsi]
      · intro _; rfl
      · intro hcc; simp [hM] at hcc
  · have hres : findSolutionValues model lp =
        (LpStatus.Optimal,
         { lp with
           resolveOK := true, status := LpStatus.Optimal,
           vars := zipAssign (fun v r => { v with dj := some r })
                     (zipAssign (fun v x => { v with varValue := some x })
                       (lp.vars.map clearModified) model.xVals) model.rcVals,
           constrs := zipAssign (fun c p => { c with pi := some p })
                        (zipAssign (fun c s => { c with slack := some s })
                          lp.constrs model.slackVals) model.piVals }) := by
      simp [findSolutionValues, hst, hM]
    rw [hres]
    refine ⟨rfl, ?_, ?_⟩
    · intro i v hv
      have hi : i < lp.vars.length := getElem?_lt hv
      obtain ⟨xi, hxi⟩ := getElem?_of_lt (l := model.xVals) (i := i) (by omega)
      obtain ⟨ri, hri⟩ := getElem?_of_lt (l := model.rcVals) (i := i) (by omega)
      refine ⟨{ clearModified v with varValue := some xi, dj := some ri },
              ?_, ?_, ?_, ?_⟩
      · rw [zipAssign_getElem?, zipAssign_getElem?, List.getElem?_map, hv,
            hxi, hri]
        rfl
      · simp [clearModified, hxi]
      · intro hcc; simp [hM] at hcc
      · intro _; simp [clearModified, hri]
    · intro i c hc
      have hi : i < lp.constrs.length := getElem?_lt hc
      obtain ⟨si, hsi⟩ := getElem?_of_lt (l := model.slackVals) (i := i) (by omega)
      obtain ⟨pii, hpii⟩ := getElem?_of_lt (l := model.piVals) (i := i) (by omega)
      refine ⟨{ c with slack := some si, pi := some pii }, ?_, ?_, ?_, ?_⟩
      · rw [zipAssign_getElem?, zipAssign_getElem?, hc, hsi, hpii]
      · simp [hsi]
      · intro hcc; simp [hM] at hcc
      · intro _; simp [hpii]

/-- Witness for claim C3: a continuous (non-MIP) one-variable, one-constraint
model solved to `Optimal` populates value, slack, reduced cost and dual. -/
theorem findSolutionValues_optimal_witness :
    ((findSolutionValues ⟨GRB.OPTIMAL, false, [3], [4], [5], [6]⟩
        ⟨[{ name := ['x'] }], [{}], LpStatus.NotSolved, false⟩).1 =
      LpStatus.Optimal) :=
  (findSolutionValues_optimal _ _ rfl rfl rfl rfl rfl).1

/-- Claim C8: for every variable processed by `GUROBI.buildSolverModel`, a
missing lower bound becomes the `-GRB.INFINITY` sentinel and a missing upper
bound `+GRB.INFINITY`; the native vtype is integer exactly when the category is
integer and the adapter's `mip` flag is set; the objective coefficient comes
from the problem's objective mapping, defaulting to 0 when the variable is
absent from it; and the created native variable is attached onto the variable
as its `solverVar` handle. -/
theorem buildSolverModel_var_translation (mip : Bool)
    (objective : List (Str × ℚ)) (vars : List PVar) :
    ∀ (i : ℕ) (v : PVar), vars[i]? = some v →
      ∃ gv : GurobiVar,
        (buildSolverModelVars mip objective vars)[i]? =
          some { v with solverVar := some gv } ∧
        (v.lowBound = none → gv.lb = -GRB.INFINITY) ∧
        (∀ b : ℚ, v.lowBound = some b → gv.lb = b) ∧
        (v.upBound = none → gv.ub = GRB.INFINITY) ∧
        (∀ b : ℚ, v.upBound = some b → gv.ub = b) ∧
        (gv.vtype = GurobiVtype.INTEGER ↔ (v.cat = VarCat.Integer ∧ mip = true)) ∧
        (∀ p : Str × ℚ, objective.find? (fun q => q.1 == v.name) = some p →
          gv.obj = p.2) ∧
        (objective.find? (fun q => q.1 == v.name) = none → gv.obj = 0) ∧
        gv.name = v.name := by
  intro i v hv
  refine ⟨buildVar mip objective v, ?_, ?_, ?_, ?_, ?_, ?_, ?_, ?_, rfl⟩
  · rw [buildSolverModelVars, List.getElem?_map, hv]
    rfl
  · intro hlb; simp [buildVar, hlb]
  · intro b hlb; simp [buildVar, hlb]
  · intro hub; simp [buildVar, hub]
  · intro b hub; simp [buildVar, hub]
  · by_cases hcond : v.cat = VarCat.Integer ∧ mip = true
    · simp [buildVar, hcond]
    · simp only [buildVar, if_neg hcond]
      constructor
      · intro h; cases h
      · intro h; exact absurd h hcond
  · intro p hp; simp [buildVar, objGet, hp]
  · intro hp; simp [buildVar, objGet, hp]

/-- Witness for claim C8: an unbounded-below integer variable absent from the
objective, built with the `mip` flag set, gets the expected native variable
attached. -/
theorem buildSolverModel_var_translation_witness :
    (buildSolverModelVars true [(['y'], 3)]
        [{ name := ['x'], upBound := some 9, cat := VarCat.Integer }])[0]? =
      some { name := ['x'], upBound := some 9, cat := VarCat.Integer,
             solverVar := some { lb := -GRB.INFINITY, ub := 9,
                                 vtype := GurobiVtype.INTEGER, obj := 0,
                                 name := ['x'] } } := by
  obtain ⟨gv, hgv, hlb, _, _, hub, hvt, _, hobj, hnm⟩ :=
    buildSolverModel_var_translation true [(['y'], 3)]
      [{ name := ['x'], upBound := some 9, cat := VarCat.Integer }] 0
      { name := ['x'], upBound := some 9, cat := VarCat.Integer } (by decide)
  have h1 : gv.lb = -GRB.INFINITY := hlb rfl
  have h2 : gv.ub = 9 := hub 9 rfl
  have h3 : gv.vtype = GurobiVtype.INTEGER := hvt.mpr ⟨rfl, rfl⟩
  have h4 : gv.obj = 0 := hobj (by decide)
  have h5 : gv.name = ['x'] := hnm
  have : gv = { lb := -GRB.INFINITY, ub := 9, vtype := GurobiVtype.INTEGER,
                obj := 0, name := ['x'] } := by
    cases gv; simp_all
  rw [this] at hgv
  exact hgv

/-- The whitespace characters of Python's `str.split()` with no argument. -/
def isPySpace (c : Char) : Bool :=
  c == ' ' || c == '\t' || c == '\n' || c == '\r' || c == '\x0B' || c == '\x0C'

/-- Digit tail of a CPython numeric group: digits with single underscores
allowed between digits (PEP 515). -/
def udigitsAux : Str → Bool
  | [] => true
  | ['_'] => false
  | '_' :: c :: rest => c.isDigit && udigitsAux rest
  | c :: rest => c.isDigit && udigitsAux rest

/-- A nonempty CPython digit group: `digit (["_"] digit)*`. -/
def udigits : Str → Bool
  | [] => false
  | c :: rest => c.isDigit && udigitsAux rest

/-- Mantissa of a CPython float literal: `digits ["." [digits]] | "." digits`,
with at most one decimal point. -/
def pyMantissa (cs : Str) : Bool :=
  let intPart := cs.takeWhile (fun c => c != '.')
  let rest := cs.dropWhile (fun c => c != '.')
  match rest with
  | [] => udigits cs
  | _ :: fracPart =>
      if fracPart.contains '.' then false
      else if intPart.isEmpty then udigits fracPart
      else udigits intPart && (fracPart.isEmpty || udigits fracPart)

/-- Number body of a CPython float literal: mantissa with an optional
`e [sign] digits` exponent (the input is already lower-cased). -/
def pyNumber (cs : Str) : Bool :=
  let mant := cs.takeWhile (fun c => c != 'e')
  let rest := cs.dropWhile (fun c => c != 'e')
  match rest with
  | [] => pyMantissa cs
  | _ :: expPart =>
      pyMantissa mant &&
        (match expPart with
         | '+' :: ds => udigits ds
         | '-' :: ds => udigits ds
         | ds => udigits ds)

/-- Model of CPython's `float(token)` acceptance on a whitespace-free token:
an optional sign followed by `inf`, `infinity`, `nan` (case-insensitive) or a
decimal/scientific numeral.  `float(value)` in `GUROBI_CMD.readsol` raises
`ValueError` exactly when this is false. -/
def pyFloat (s : Str) : Bool :=
  let cs := s.map Char.toLower
  let body :=
    match cs with
    | '+' :: rest => rest
    | '-' :: rest => rest
    | other => other
  body == ['i', 'n', 'f'] ||
  body == ['i', 'n', 'f', 'i', 'n', 'i', 't', 'y'] ||
  body == ['n', 'a', 'n'] || pyNumber body

/-- Split a string at every occurrence of `sep`, keeping empty pieces
(Python's `s.split(sep)`). -/
def splitOnChar (sep : Char) : Str → List Str
  | [] => [[]]
  | c :: rest =>
      match splitOnChar sep rest with
      | [] => [[]]
      | h :: t => if c = sep then [] :: h :: t else (c :: h) :: t

/-- Python text-file line iteration over the full contents, with each line's
trailing newline stripped: an empty file yields no lines, a trailing newline
does not create an extra line, and an interior blank line yields `[]`. -/
def pyLines (s : Str) : List Str :=
  let parts := splitOnChar '\n' s
  match parts.getLast? with
  | some [] => parts.dropLast
  | _ => parts

/-- Helper of `pyTokens`: accumulate the current (reversed) token. -/
def pyTokensAux : Str → Str → List Str
  | [], acc => if acc.isEmpty then [] else [acc.reverse]
  | c :: rest, acc =>
      if isPySpace c then
        if acc.isEmpty then pyTokensAux rest []
        else acc.reverse :: pyTokensAux rest []
      else pyTokensAux rest (c :: acc)

/-- Python's `line.split()` with no argument: split at runs of whitespace,
discarding empty tokens. -/
def pyTokens (line : Str) : List Str := pyTokensAux line []

/-- The comment test `line[0] == '#'` of `GUROBI_CMD.readsol` (a Python file
line is never the empty string, so the model's `[]` line corresponds to the
bare-newline line whose first character is not `'#'`). -/
def lineIsComment : Str → Bool
  | [] => false
  | c :: _ => c == '#'

/-- Python `dict` assignment `d[k] = v` on an insertion-ordered association
list: overwriting keeps the key's original position, a new key is appended. -/
def dictInsert (d : List (Str × Str)) (k v : Str) : List (Str × Str) :=
  if d.any (fun p => p.1 == k) then
    d.map (fun p => if p.1 == k then (p.1, v) else p)
  else d ++ [(k, v)]

/-- The Python exceptions that can escape `GUROBI_CMD.readsol`: the
two-element unpacking of `line.split()` failing, or `float(value)` failing. -/
inductive PyExn where
  | unpackMismatch
  | floatValueError
  deriving DecidableEq, Repr

/-- The quintuple returned by `GUROBI_CMD.readsol`:
`status, values, reducedCosts, shadowPrices, slacks`.  Values are represented
by their file tokens (see the module docstring). -/
structure SolResult where
  status : LpStatus
  values : List (Str × Str)
  reducedCosts : List (Str × Str)
  shadowPrices : List (Str × Str)
  slacks : List (Str × Str)
  deriving DecidableEq, Repr

/-- The `for line in my_file` loop of `GUROBI_CMD.readsol` (gurobi_api.py
lines 320-323): skip comment lines, unpack each other line into exactly two
tokens, parse the second as a float, and store into the `values` dict. -/
def readsolLoop : List Str → List (Str × Str) → Except PyExn (List (Str × Str))
  | [], values => .ok values
  | line :: rest, values =>
      if lineIsComment line then readsolLoop rest values
      else
        match pyTokens line with
        | [name, value] =>
            if pyFloat value then readsolLoop rest (dictInsert values name value)
            else .error .floatValueError
        | _ => .error .unpackMismatch

/-- `GUROBI_CMD.readsol` (gurobi_api.py lines 301-324): an empty file (EOF on
the first read) yields `NotSolved` with empty mappings; otherwise the first
line is skipped as the objective line, the remaining lines are parsed by
`readsolLoop` into `values`, the status is assumed `Optimal`, and
`reducedCosts`, `shadowPrices` and `slacks` stay empty. -/
def readsol (contents : Str) : Except PyExn SolResult :=
  match pyLines contents with
  | [] =>
      .ok { status := .NotSolved, values := [], reducedCosts := [],
            shadowPrices := [], slacks := [] }
  | _ :: rest =>
      match readsolLoop rest [] with
      | .ok values =>
          .ok { status := .Optimal, values := values, reducedCosts := [],
                shadowPrices := [], slacks := [] }
      | .error e => .error e

/-- A variable handed to `GUROBI_CMD.writesol`: its name and the value token
of `v.value()` when defined. -/
structure WriteVar where
  name : Str
  value : Option Str
  deriving DecidableEq, Repr

/-- The list comprehension
`[(v.name, v.value()) for v in vs if v.value() is not None]` of
`GUROBI_CMD.writesol` (gurobi_api.py line 329). -/
def writesolPairs (vs : List WriteVar) : List (Str × Str) :=
  vs.filterMap (fun v => v.value.map (fun x => (v.name, x)))

/-- The rows `'{} {}'.format(name, value)` of `GUROBI_CMD.writesol`. -/
def writesolRows (vs : List WriteVar) : List Str :=
  (writesolPairs vs).map (fun p => p.1 ++ ' ' :: p.2)

/-- `'\n'.join(rows)` (Python's newline join, no trailing newline). -/
def joinLines : List Str → Str
  | [] => []
  | [r] => r
  | r :: rest => r ++ '\n' :: joinLines rest

/-- `GUROBI_CMD.writesol` (gurobi_api.py lines 326-335): the file contents
written for the warm-start file. -/
def writesol (vs : List WriteVar) : Str :=
  joinLines (writesolRows vs)

/-- `splitOnChar` never returns the empty list. -/
theorem splitOnChar_ne_nil (sep : Char) : ∀ s : Str, splitOnChar sep s ≠ []
  | [] => by simp [splitOnChar]
  | c :: rest => by
      have ih := splitOnChar_ne_nil sep rest
      simp only [splitOnChar]
      cases h : splitOnChar sep rest with
      | nil => exact absurd h ih
      | cons hd tl => by_cases hc : c = sep <;> simp [hc]

/-- A separator-free string splits into itself alone. -/
theorem splitOnChar_no_sep (sep : Char) :
    ∀ s : Str, (∀ c ∈ s, c ≠ sep) → splitOnChar sep s = [s]
  | [], _ => rfl
  | c :: rest, h => by
      have ih := splitOnChar_no_sep sep rest (fun x hx => h x (by simp [hx]))
      have hc : c ≠ sep := h c (by simp)
      simp [splitOnChar, ih, hc]

/-- Splitting distributes over an explicit separator occurrence. -/
theorem splitOnChar_append (sep : Char) :
    ∀ (xs ys : Str), (∀ c ∈ xs, c ≠ sep) →
      splitOnChar sep (xs ++ sep :: ys) = xs :: splitOnChar sep ys
  | [], ys, _ => by
      simp only [List.nil_append, splitOnChar]
      cases h : splitOnChar sep ys with
      | nil => exact absurd h (splitOnChar_ne_nil sep ys)
      | cons hd tl => simp
  | x :: xs, ys, h => by
      have ih := splitOnChar_append sep xs ys (fun c hc => h c (by simp [hc]))
      have hx : x ≠ sep := h x (by simp)
      rw [List.cons_append, splitOnChar, ih]
      simp [hx]

/-- A nonempty file yields at least one Python line. -/
theorem pyLines_ne_nil : ∀ {s : Str}, s ≠ [] → pyLines s ≠ [] := by
  intro s hs
  unfold pyLines
  cases s with
  | nil => exact absurd rfl hs
  | cons c rest =>
      simp only [splitOnChar]
      cases hsp : splitOnChar '\n' rest with
      | nil => exact absurd hsp (splitOnChar_ne_nil '\n' rest)
      | cons h t =>
          by_cases hc : c = '\n'
          · simp only [hc, if_pos rfl]
            split
            · exact List.ne_nil_of_length_pos (by simp)
            · simp
          · simp only [if_neg hc]
            split
            · rename_i heq
              cases t with
              | nil =>
                  simp only [List.getLast?_singleton, Option.some.injEq] at heq
                  cases heq
              | cons t0 t1 => exact List.ne_nil_of_length_pos (by simp)
            · simp

/-- Non-whitespace characters are accumulated into the current token. -/
theorem pyTokensAux_append (p : Str) (s acc : Str)
    (hp : ∀ c ∈ p, isPySpace c = false) :
    pyTokensAux (p ++ s) acc = pyTokensAux s (p.reverse ++ acc) := by
  induction p generalizing acc with
  | nil => simp
  | cons c p ih =>
      have hc : isPySpace c = false := hp c (by simp)
      have hrest : ∀ x ∈ p, isPySpace x = false := fun x hx => hp x (by simp [hx])
      rw [List.cons_append, pyTokensAux]
      rw [if_neg (by simp [hc])]
      rw [ih (c :: acc) hrest]
      simp

/-- A nonempty whitespace-free string is one single token. -/
theorem pyTokens_single (v : Str) (hv : v ≠ [])
    (h : ∀ c ∈ v, isPySpace c = false) : pyTokens v = [v] := by
  have h2 := pyTokensAux_append v [] [] h
  simp only [List.append_nil] at h2
  unfold pyTokens
  rw [h2]
  simp [pyTokensAux, hv]

/-- A `name value` row tokenises into exactly those two tokens. -/
theorem pyTokens_pair (n v : Str) (hn : n ≠ [])
    (hnc : ∀ c ∈ n, isPySpace c = false) (hv : v ≠ [])
    (hvc : ∀ c ∈ v, isPySpace c = false) :
    pyTokens (n ++ ' ' :: v) = [n, v] := by
  unfold pyTokens
  rw [pyTokensAux_append n (' ' :: v) [] hnc]
  simp only [List.append_nil]
  rw [pyTokensAux]
  rw [if_pos (by decide)]
  rw [if_neg (by simp [hn])]
  rw [show pyTokensAux v [] = pyTokens v from rfl, pyTokens_single v hv hvc]
  simp

/-- A row built from a non-comment name is not a comment line. -/
theorem lineIsComment_pair (n v : Str) (hn : n ≠ [])
    (hcom : lineIsComment n = false) :
    lineIsComment (n ++ ' ' :: v) = false := by
  cases n with
  | nil => exact absurd rfl hn
  | cons c t => simpa [lineIsComment] using hcom

/-- Inserting a fresh key into a Python dict appends it. -/
theorem dictInsert_fresh (d : List (Str × Str)) (k v : Str)
    (h : ∀ q ∈ d, q.1 ≠ k) : dictInsert d k v = d ++ [(k, v)] := by
  have hany : d.any (fun p => p.1 == k) = false := by
    rw [List.any_eq_false]
    intro q hq
    simp [h q hq]
  simp [dictInsert, hany]

/-- Folding fresh, mutually distinct keys into a Python dict appends them in
order. -/
theorem foldl_dictInsert_fresh :
    ∀ (pairs acc : List (Str × Str)),
      (∀ p ∈ pairs, ∀ q ∈ acc, q.1 ≠ p.1) →
      (pairs.map Prod.fst).Nodup →
      pairs.foldl (fun d p => dictInsert d p.1 p.2) acc = acc ++ pairs
  | [], acc, _, _ => by simp
  | p :: ps, acc, hfresh, hnodup => by
      have hnd : p.1 ∉ ps.map Prod.fst ∧ (ps.map Prod.fst).Nodup := by
        have h2 := hnodup
        rw [List.map_cons, List.nodup_cons] at h2
        exact h2
      simp only [List.foldl_cons]
      rw [dictInsert_fresh acc p.1 p.2 (fun q hq => hfresh p (by simp) q hq)]
      rw [foldl_dictInsert_fresh ps (acc ++ [p])
        (by
          intro pp hpp q hq
          rcases List.mem_append.mp hq with hq | hq
          · exact hfresh pp (by simp [hpp]) q hq
          · simp only [List.mem_singleton] at hq
            subst hq
            intro he
            exact hnd.1 (he ▸ List.mem_map_of_mem Prod.fst hpp))
        hnd.2]
      simp

/-- Running the `readsol` line loop over well-formed `name value` rows
accumulates exactly the dict insertions of those pairs. -/
theorem readsolLoop_rows :
    ∀ (pairs acc : List (Str × Str)),
      (∀ p ∈ pairs, p.1 ≠ [] ∧ (∀ c ∈ p.1, isPySpace c = false) ∧
        lineIsComment p.1 = false ∧ p.2 ≠ [] ∧
        (∀ c ∈ p.2, isPySpace c = false) ∧ pyFloat p.2 = true) →
      readsolLoop (pairs.map (fun p => p.1 ++ ' ' :: p.2)) acc =
        .ok (pairs.foldl (fun d p => dictInsert d p.1 p.2) acc)
  | [], acc, _ => rfl
  | p :: ps, acc, h => by
      obtain ⟨hn, hnc, hcom, hv, hvc, hfl⟩ := h p (by simp)
      have hcom2 : lineIsComment (p.1 ++ ' ' :: p.2) = false :=
        lineIsComment_pair p.1 p.2 hn hcom
      simp only [List.map_cons, readsolLoop, hcom2, Bool.false_eq_true,
        if_false]
      rw [pyTokens_pair p.1 p.2 hn hnc hv hvc]
      simp only [hfl, if_true]
      rw [readsolLoop_rows ps (dictInsert acc p.1 p.2)
        (fun q hq => h q (by simp [hq]))]
      simp

/-- The per-line state transformer of the `readsol` loop, as described by the
spec: skip comment lines, otherwise store second token under first token. -/
def readsolStep (d : List (Str × Str)) (l : Str) : List (Str × Str) :=
  if lineIsComment l then d
  else
    match pyTokens l with
    | [n, v] => dictInsert d n v
    | _ => d

/-- The value mapping described by the spec for a solution file: drop the
first (objective) line, then fold every line through `readsolStep`. -/
def readsolSpecValues (s : Str) : List (Str × Str) :=
  ((pyLines s).drop 1).foldl readsolStep []

/-- A normal return of the `readsol` loop yields exactly the fold of
`readsolStep` over the lines. -/
theorem readsolLoop_ok_values :
    ∀ (lines : List Str) (acc values : List (Str × Str)),
      readsolLoop lines acc = .ok values →
      values = lines.foldl readsolStep acc
  | [], acc, values, h => by
      simp only [readsolLoop, Except.ok.injEq] at h
      simp [h]
  | line :: rest, acc, values, h => by
      by_cases hcom : lineIsComment line = true
      · simp only [readsolLoop, hcom, if_true] at h
        rw [List.foldl_cons, readsolStep, if_pos hcom]
        exact readsolLoop_ok_values rest acc values h
      · rw [Bool.not_eq_true] at hcom
        rcases htok : pyTokens line with _ | ⟨a, _ | ⟨b, _ | ⟨c, t⟩⟩⟩
        · simp only [readsolLoop, hcom, Bool.false_eq_true, if_false,
            htok] at h
          exact Except.noConfusion h
        · simp only [readsolLoop, hcom, Bool.false_eq_true, if_false,
            htok] at h
          exact Except.noConfusion h
        · simp only [readsolLoop, hcom, Bool.false_eq_true, if_false,
            htok] at h
          by_cases hfl : pyFloat b = true
          · simp only [hfl, if_true] at h
            rw [List.foldl_cons, readsolStep, if_neg (by simp [hcom]), htok]
            exact readsolLoop_ok_values rest (dictInsert acc a b) values h
          · simp only [Bool.not_eq_true] at hfl
            simp only [hfl, Bool.false_eq_true, if_false] at h
            exact Except.noConfusion h
        · simp only [readsolLoop, hcom, Bool.false_eq_true, if_false,
            htok] at h
          exact Except.noConfusion h

/-- Splitting a newline-join of newline-free rows recovers the rows. -/
theorem splitOnChar_joinLines :
    ∀ rows : List Str, rows ≠ [] → (∀ r ∈ rows, ∀ c ∈ r, c ≠ '\n') →
      splitOnChar '\n' (joinLines rows) = rows
  | [], h, _ => absurd rfl h
  | [r], _, h => by
      simp only [joinLines]
      exact splitOnChar_no_sep '\n' r (h r (by simp))
  | r :: r2 :: rest, _, h => by
      show splitOnChar '\n' (r ++ '\n' :: joinLines (r2 :: rest)) = _
      rw [splitOnChar_append '\n' r (joinLines (r2 :: rest)) (h r (by simp))]
      rw [splitOnChar_joinLines (r2 :: rest) (by simp)
        (fun rr hrr => h rr (by simp [hrr]))]

/-- Python line iteration over a newline-join of nonempty newline-free rows
recovers the rows. -/
theorem pyLines_joinLines (rows : List Str) (hne : rows ≠ [])
    (hr0 : ∀ r ∈ rows, r ≠ []) (hrn : ∀ r ∈ rows, ∀ c ∈ r, c ≠ '\n') :
    pyLines (joinLines rows) = rows := by
  unfold pyLines
  rw [splitOnChar_joinLines rows hne hrn]
  dsimp only
  have hlast : rows.getLast? ≠ some [] := by
    cases hgl : rows.getLast? with
    | none => simp
    | some last =>
        have hmem : last ∈ rows := List.mem_of_mem_getLast? hgl
        have := hr0 last hmem
        simp [this]
  split
  · rename_i heq; exact absurd heq hlast
  · rfl

/-- The `readsol` loop returns normally exactly when every non-comment line
splits into two tokens whose second is a float token. -/
theorem readsolLoop_ok_iff :
    ∀ (lines : List Str) (acc : List (Str × Str)),
      (∃ values, readsolLoop lines acc = .ok values) ↔
      (∀ l ∈ lines, lineIsComment l = false →
        ∃ n v, pyTokens l = [n, v] ∧ pyFloat v = true)
  | [], acc => by simp [readsolLoop]
  | line :: rest, acc => by
      by_cases hcom : lineIsComment line = true
      · simp only [readsolLoop, hcom, if_true]
        rw [readsolLoop_ok_iff rest acc]
        constructor
        · intro h l hl hcl
          rcases List.mem_cons.mp hl with rfl | hl
          · rw [hcom] at hcl; cases hcl
          · exact h l hl hcl
        · intro h l hl hcl
          exact h l (by simp [hl]) hcl
      · rw [Bool.not_eq_true] at hcom
        rcases htok : pyTokens line with _ | ⟨a, _ | ⟨b, _ | ⟨c, t⟩⟩⟩
        · simp only [readsolLoop, hcom, Bool.false_eq_true, if_false, htok]
          constructor
          · rintro ⟨v, hv⟩
            exact Except.noConfusion hv
          · intro h
            obtain ⟨n, v, hnv, -⟩ := h line (by simp) hcom
            rw [htok] at hnv
            cases hnv
        · simp only [readsolLoop, hcom, Bool.false_eq_true, if_false, htok]
          constructor
          · rintro ⟨v, hv⟩
            exact Except.noConfusion hv
          · intro h
            obtain ⟨n, v, hnv, -⟩ := h line (by simp) hcom
            rw [htok] at hnv
            injection hnv with h1 h2
            cases h2
        · simp only [readsolLoop, hcom, Bool.false_eq_true, if_false, htok]
          by_cases hfl : pyFloat b = true
          · simp only [hfl, if_true]
            rw [readsolLoop_ok_iff rest (dictInsert acc a b)]
            constructor
            · intro h l hl hcl
              rcases List.mem_cons.mp hl with rfl | hl
              · exact ⟨a, b, htok, hfl⟩
              · exact h l hl hcl
            · intro h l hl hcl
              exact h l (by simp [hl]) hcl
          · rw [Bool.not_eq_true] at hfl
            simp only [hfl, Bool.false_eq_true, if_false]
            constructor
            · rintro ⟨v, hv⟩
              exact Except.noConfusion hv
            · intro h
              obtain ⟨n, v, hnv, hfv⟩ := h line (by simp) hcom
              rw [htok] at hnv
              injection hnv with h1 h2
              injection h2 with h2 h3
              subst h2
              rw [hfl] at hfv
              cases hfv
        · simp only [readsolLoop, hcom, Bool.false_eq_true, if_false, htok]
          constructor
          · rintro ⟨v, hv⟩
            exact Except.noConfusion hv
          · intro h
            obtain ⟨n, v, hnv, -⟩ := h line (by simp) hcom
            rw [htok] at hnv
            injection hnv with h1 h2
            injection h2 with h2 h3
            cases h3

/-- Claim C5: `GUROBI_CMD.readsol` on an empty file returns `NotSolved` with
all four result mappings empty; on any non-empty file that parses, it returns
`Optimal` and the mapping obtained by skipping the first line and every
comment line and storing each remaining line's second token under its first
token. -/
theorem readsol_empty_and_optimal :
    readsol [] = .ok { status := LpStatus.NotSolved, values := [],
                       reducedCosts := [], shadowPrices := [], slacks := [] } ∧
    ∀ (s : Str), s ≠ [] → ∀ r : SolResult, readsol s = .ok r →
      r.status = LpStatus.Optimal ∧ r.values = readsolSpecValues s := by
  refine ⟨rfl, ?_⟩
  intro s hs r hr
  have hpl2 : pyLines s ≠ [] := pyLines_ne_nil hs
  unfold readsol at hr
  cases hpl : pyLines s with
  | nil => exact absurd hpl hpl2
  | cons l rest =>
      rw [hpl] at hr
      dsimp only at hr
      cases hloop : readsolLoop rest [] with
      | error e =>
          rw [hloop] at hr
          exact Except.noConfusion hr
      | ok values =>
          rw [hloop] at hr
          injection hr with h
          subst h
          refine ⟨rfl, ?_⟩
          show values = readsolSpecValues s
          unfold readsolSpecValues
          rw [hpl, List.drop_succ_cons, List.drop_zero]
          exact readsolLoop_ok_values rest [] values hloop

/-- Witness for claim C5: the two-line file `obj\nx 1` parses to `Optimal`
with the single pair `x -> 1`. -/
theorem readsol_empty_and_optimal_witness :
    (⟨LpStatus.Optimal, [(['x'], ['1'])], [], [], []⟩ : SolResult).status =
        LpStatus.Optimal ∧
    (⟨LpStatus.Optimal, [(['x'], ['1'])], [], [], []⟩ : SolResult).values =
        readsolSpecValues ['o', 'b', 'j', '\n', 'x', ' ', '1'] :=
  readsol_empty_and_optimal.2 ['o', 'b', 'j', '\n', 'x', ' ', '1']
    (by decide) ⟨LpStatus.Optimal, [(['x'], ['1'])], [], [], []⟩ rfl

/-- Claim C10: `GUROBI_CMD.readsol` returns normally exactly on inputs whose
every line after the first that does not begin with `'#'` splits into exactly
two whitespace-separated tokens with a float-parsable second token; on every
other input the loop raises. -/
theorem readsol_ok_iff_wellformed (s : Str) :
    (∃ r : SolResult, readsol s = .ok r) ↔
    (∀ l ∈ (pyLines s).drop 1, lineIsComment l = false →
      ∃ n v, pyTokens l = [n, v] ∧ pyFloat v = true) := by
  unfold readsol
  cases hpl : pyLines s with
  | nil => simp
  | cons l rest =>
      simp only [List.drop_succ_cons, List.drop_zero]
      constructor
      · rintro ⟨r, hr⟩
        cases hloop : readsolLoop rest [] with
        | error e =>
            rw [hloop] at hr
            exact Except.noConfusion hr
        | ok values =>
            exact (readsolLoop_ok_iff rest []).mp ⟨values, hloop⟩
      · intro hwf
        obtain ⟨values, hv⟩ := (readsolLoop_ok_iff rest []).mpr hwf
        rw [hv]
        exact ⟨_, rfl⟩

/-- Witness for claim C10: the file `obj\nx 1` is well-formed, hence the
reader returns normally on it. -/
theorem readsol_ok_iff_wellformed_witness :
    ∃ r : SolResult, readsol ['o', 'b', 'j', '\n', 'x', ' ', '1'] = .ok r :=
  (readsol_ok_iff_wellformed ['o', 'b', 'j', '\n', 'x', ' ', '1']).mpr
    (by
      intro l hl hcl
      have hl2 : (pyLines ['o', 'b', 'j', '\n', 'x', ' ', '1']).drop 1 =
          [['x', ' ', '1']] := by decide
      rw [hl2] at hl
      simp only [List.mem_singleton] at hl
      subst hl
      exact ⟨['x'], ['1'], by decide, by decide⟩)

/-- Counterexample for claim C4: writing the single defined pair `x -> 1` with
`GUROBI_CMD.writesol` and re-reading the file with `GUROBI_CMD.readsol` does
not give the pair back: the reader skips the first line as the objective-value
line, so the values mapping comes back empty. -/
theorem writesol_readsol_not_inverse :
    readsol (writesol [{ name := ['x'], value := some ['1'] }]) =
      .ok { status := LpStatus.Optimal, values := [], reducedCosts := [],
            shadowPrices := [], slacks := [] } ∧
    writesolPairs [{ name := ['x'], value := some ['1'] }] =
      [(['x'], ['1'])] ∧
    ([] : List (Str × Str)) ≠ [(['x'], ['1'])] :=
  ⟨rfl, rfl, by decide⟩

/-- Claim C4 (amended): for a finite list of `(name, value)` pairs with every
value defined, every name and value token nonempty, whitespace-free, names not
starting with `'#'` and pairwise distinct as well as values accepted by
`float`, re-reading a `writesol` file with `readsol` yields exactly the pairs
after the first one (the first written pair is consumed as the skipped
objective-value line; the empty list reads back as `NotSolved` and empty). -/
theorem writesol_readsol_roundtrip (vs : List WriteVar)
    (hdef : ∀ v ∈ vs, v.value ≠ none)
    (hname : ∀ v ∈ vs, v.name ≠ [] ∧ (∀ c ∈ v.name, isPySpace c = false) ∧
      lineIsComment v.name = false)
    (hval : ∀ v ∈ vs, ∀ x : Str, v.value = some x → x ≠ [] ∧
      (∀ c ∈ x, isPySpace c = false) ∧ pyFloat x = true)
    (hnodup : ((writesolPairs vs).map Prod.fst).Nodup) :
    readsol (writesol vs) =
      .ok { status := if vs.isEmpty then LpStatus.NotSolved
                      else LpStatus.Optimal,
            values := (writesolPairs vs).drop 1,
            reducedCosts := [], shadowPrices := [], slacks := [] } := by
  rcases vs with _ | ⟨v0, vrest⟩
  · rfl
  · have hp : ∀ p ∈ writesolPairs (v0 :: vrest), p.1 ≠ [] ∧
        (∀ c ∈ p.1, isPySpace c = false) ∧ lineIsComment p.1 = false ∧
        p.2 ≠ [] ∧ (∀ c ∈ p.2, isPySpace c = false) ∧ pyFloat p.2 = true := by
      intro p hpmem
      obtain ⟨v, hv, hfv⟩ := List.mem_filterMap.mp hpmem
      cases hx : v.value with
      | none => rw [hx] at hfv; cases hfv
      | some x =>
          rw [hx] at hfv
          simp only [Option.map_some', Option.some.injEq] at hfv
          subst hfv
          obtain ⟨hn1, hn2, hn3⟩ := hname v hv
          obtain ⟨hx1, hx2, hx3⟩ := hval v hv x hx
          exact ⟨hn1, hn2, hn3, hx1, hx2, hx3⟩
    have hpne : writesolPairs (v0 :: vrest) ≠ [] := by
      have h0 := hdef v0 (by simp)
      cases hx : v0.value with
      | none => exact absurd hx h0
      | some x => simp [writesolPairs, hx]
    have hlines : pyLines (writesol (v0 :: vrest)) =
        writesolRows (v0 :: vrest) := by
      apply pyLines_joinLines
      · simp [writesolRows, hpne]
      · intro r hr
        simp only [writesolRows] at hr
        obtain ⟨q, hq, hqe⟩ := List.mem_map.mp hr
        subst hqe
        simp
      · intro r hr c hc
        simp only [writesolRows] at hr
        obtain ⟨q, hq, hqe⟩ := List.mem_map.mp hr
        subst hqe
        obtain ⟨h1, h2, -, h4, h5, -⟩ := hp q hq
        rcases List.mem_append.mp hc with hc | hc
        · have := h2 c hc
          intro he
          rw [he] at this
          exact absurd this (by decide)
        · rcases List.mem_cons.mp hc with rfl | hc
          · decide
          · have := h5 c hc
            intro he
            rw [he] at this
            exact absurd this (by decide)
    obtain ⟨p0, prest, hsplit⟩ : ∃ p0 prest,
        writesolPairs (v0 :: vrest) = p0 :: prest := by
      cases hpr : writesolPairs (v0 :: vrest) with
      | nil => exact absurd hpr hpne
      | cons a b => exact ⟨a, b, rfl⟩
    have hnd : (prest.map Prod.fst).Nodup := by
      rw [hsplit, List.map_cons, List.nodup_cons] at hnodup
      exact hnodup.2
    unfold readsol
    rw [hlines]
    rw [show writesolRows (v0 :: vrest) =
        (writesolPairs (v0 :: vrest)).map (fun p => p.1 ++ ' ' :: p.2)
        from rfl]
    rw [hsplit]
    simp only [List.map_cons]
    show ((match readsolLoop (prest.map (fun p => p.1 ++ ' ' :: p.2)) [] with
           | .ok values =>
               Except.ok { status := LpStatus.Optimal, values := values,
                           reducedCosts := [], shadowPrices := [],
                           slacks := [] }
           | .error e => Except.error e : Except PyExn SolResult)) = _
    rw [readsolLoop_rows prest []
      (fun q hq => hp q (by rw [hsplit]; simp [hq]))]
    rw [foldl_dictInsert_fresh prest [] (by simp) hnd]
    simp

/-- Witness for claim C4 (amended): two defined pairs round-trip into the tail
pair `y -> 2`. -/
theorem writesol_readsol_roundtrip_witness :
    readsol (writesol [{ name := ['x'], value := some ['1'] },
                       { name := ['y'], value := some ['2'] }]) =
      .ok { status := LpStatus.Optimal, values := [(['y'], ['2'])],
            reducedCosts := [], shadowPrices := [], slacks := [] } := by
  have h := writesol_readsol_roundtrip
    [{ name := ['x'], value := some ['1'] },
     { name := ['y'], value := some ['2'] }]
    (by decide) (by decide)
    (by
      intro v hv x hx
      rcases List.mem_cons.mp hv with rfl | hv
      · injection hx with hx2
        subst hx2
        exact ⟨by decide, by decide, by decide⟩
      · rcases List.mem_cons.mp hv with rfl | hv
        · injection hx with hx2
          subst hx2
          exact ⟨by decide, by decide, by decide⟩
        · simp at hv)
    (by decide)
  exact h

/-- The environment facts that determine a `GUROBI_CMD.actualSolve` run: the
executable probe, the configured flags, the subprocess exit code, whether the
solver produced a solution file, and that file's contents. -/
structure CmdEnv where
  exeOk : Bool
  msg : Bool
  warmStart : Bool
  mip : Bool
  isMIP : Bool
  returnCode : Int
  solFileProduced : Bool
  solContents : Str
  deriving DecidableEq, Repr

/-- The observable effects of `GUROBI_CMD.actualSolve`, in program order.
`deleteTmpFiles` stands for the single
`delete_tmp_files(tmpLp, tmpMst, tmpSol, "gurobi.log")` call; the `assign*`
events record the argument pushed onto the problem (`none` is Python `None`). -/
inductive CmdEvent where
  | writeLP
  | removeStaleSol
  | writeMst
  | warnRelax
  | openPipe
  | callSubprocess
  | closePipe
  | readSolFile
  | deleteTmpFiles
  | assignVarsVals (values : Option (List (Str × Str)))
  | assignVarsDj (values : Option (List (Str × Str)))
  | assignConsPi (values : Option (List (Str × Str)))
  | assignConsSlack (values : Option (List (Str × Str)))
  | assignStatus (s : LpStatus)
  deriving DecidableEq, Repr

/-- The ways `GUROBI_CMD.actualSolve` can raise: `PulpSolverError` for a
missing executable or a nonzero exit code, or a propagated `readsol`
exception. -/
inductive CmdError where
  | notExecutable
  | executionFailed
  | py (e : PyExn)
  deriving DecidableEq, Repr

/-- The events of `GUROBI_CMD.actualSolve` up to and including the subprocess
call (gurobi_api.py lines 253-281): write the LP file, remove a stale solution
file, optionally write the warm-start file, optionally warn about an
unrelaxable MIP, open the null-device pipe unless verbose, run the subprocess,
and close the pipe if it was opened. -/
def preTrace (env : CmdEnv) : List CmdEvent :=
  [CmdEvent.writeLP, CmdEvent.removeStaleSol]
  ++ (if env.warmStart then [CmdEvent.writeMst] else [])
  ++ (if env.isMIP && !env.mip then [CmdEvent.warnRelax] else [])
  ++ (if env.msg then [] else [CmdEvent.openPipe])
  ++ [CmdEvent.callSubprocess]
  ++ (if env.msg then [] else [CmdEvent.closePipe])

/-- `GUROBI_CMD.actualSolve` (gurobi_api.py lines 248-299) as a result plus
event trace: raise `SolverNotExecutable` when the probe fails; raise
`SolverExecutionFailed` on a nonzero exit code; with no solution file report
`NotSolved` and push `None` results; otherwise parse the solution file
(propagating its exceptions), delete the temporary files, push the parsed
results unless the status is `Infeasible`, and always assign the status. -/
def actualSolveCmd (env : CmdEnv) : Except CmdError LpStatus × List CmdEvent :=
  if env.exeOk = false then (.error .notExecutable, [])
  else if env.returnCode ≠ 0 then (.error .executionFailed, preTrace env)
  else if env.solFileProduced = false then
    (.ok LpStatus.NotSolved,
     preTrace env ++ [CmdEvent.deleteTmpFiles]
       ++ (if LpStatus.NotSolved ≠ LpStatus.Infeasible then
             [CmdEvent.assignVarsVals none, CmdEvent.assignVarsDj none,
              CmdEvent.assignConsPi none, CmdEvent.assignConsSlack none]
           else [])
       ++ [CmdEvent.assignStatus LpStatus.NotSolved])
  else
    match readsol env.solContents with
    | .error e => (.error (.py e), preTrace env ++ [CmdEvent.readSolFile])
    | .ok r =>
        (.ok r.status,
         preTrace env ++ [CmdEvent.readSolFile, CmdEvent.deleteTmpFiles]
           ++ (if r.status ≠ LpStatus.Infeasible then
                 [CmdEvent.assignVarsVals (some r.values),
                  CmdEvent.assignVarsDj (some r.reducedCosts),
                  CmdEvent.assignConsPi (some r.shadowPrices),
                  CmdEvent.assignConsSlack (some r.slacks)]
               else [])
           ++ [CmdEvent.assignStatus r.status])

/-- Every pre-subprocess event is one of the seven setup events. -/
theorem preTrace_events (env : CmdEnv) :
    ∀ e ∈ preTrace env, e = CmdEvent.writeLP ∨ e = CmdEvent.removeStaleSol ∨
      e = CmdEvent.writeMst ∨ e = CmdEvent.warnRelax ∨
      e = CmdEvent.openPipe ∨ e = CmdEvent.callSubprocess ∨
      e = CmdEvent.closePipe := by
  intro e he
  unfold preTrace at he
  split_ifs at he <;> simp at he <;> tauto

/-- The three result mappings `readsol` never populates are empty on every
normal return. -/
theorem readsol_result_fields :
    ∀ (s : Str) (r : SolResult), readsol s = .ok r →
      r.reducedCosts = [] ∧ r.shadowPrices = [] ∧ r.slacks = [] := by
  intro s r h
  unfold readsol at h
  cases hpl : pyLines s with
  | nil =>
      rw [hpl] at h
      injection h with h2
      subst h2
      exact ⟨rfl, rfl, rfl⟩
  | cons l rest =>
      rw [hpl] at h
      dsimp only at h
      cases hloop : readsolLoop rest [] with
      | error e =>
          rw [hloop] at h
          exact Except.noConfusion h
      | ok values =>
          rw [hloop] at h
          injection h with h2
          subst h2
          exact ⟨rfl, rfl, rfl⟩

/-- Any dict actually pushed for reduced costs, shadow prices or slacks by
`GUROBI_CMD.actualSolve` is empty. -/
theorem actualSolveCmd_some_assigns (env : CmdEnv) (d : List (Str × Str)) :
    (CmdEvent.assignVarsDj (some d) ∈ (actualSolveCmd env).2 → d = []) ∧
    (CmdEvent.assignConsPi (some d) ∈ (actualSolveCmd env).2 → d = []) ∧
    (CmdEvent.assignConsSlack (some d) ∈ (actualSolveCmd env).2 → d = []) := by
  by_cases h1 : env.exeOk = false
  · simp [actualSolveCmd, h1]
  · simp only [Bool.not_eq_false] at h1
    by_cases h2 : env.returnCode = 0
    · by_cases h3 : env.solFileProduced = false
      · have hres : (actualSolveCmd env).2 =
            preTrace env ++ [CmdEvent.deleteTmpFiles]
              ++ [CmdEvent.assignVarsVals none, CmdEvent.assignVarsDj none,
                  CmdEvent.assignConsPi none, CmdEvent.assignConsSlack none]
              ++ [CmdEvent.assignStatus LpStatus.NotSolved] := by
          simp [actualSolveCmd, h1, h2, h3]
        rw [hres]
        refine ⟨?_, ?_, ?_⟩ <;>
          · intro hmem
            simp only [List.mem_append, List.mem_cons, List.mem_singleton,
              List.not_mem_nil, or_false] at hmem
            rcases hmem with ((hmem | hmem) | hmem) | hmem
            · rcases preTrace_events env _ hmem with
                h | h | h | h | h | h | h <;> simp at h
            · simp at hmem
            · rcases hmem with hmem | hmem | hmem | hmem <;> simp at hmem
            · simp at hmem
      · simp only [Bool.not_eq_false] at h3
        cases hread : readsol env.solContents with
        | error e =>
            have hres : (actualSolveCmd env).2 =
                preTrace env ++ [CmdEvent.readSolFile] := by
              simp [actualSolveCmd, h1, h2, h3, hread]
            rw [hres]
            refine ⟨?_, ?_, ?_⟩ <;>
              · intro hmem
                simp only [List.mem_append, List.mem_singleton] at hmem
                rcases hmem with hmem | hmem
                · rcases preTrace_events env _ hmem with
                    h | h | h | h | h | h | h <;> simp at h
                · simp at hmem
        | ok r =>
            obtain ⟨hrc, hsp, hsl⟩ := readsol_result_fields _ _ hread
            have hres : (actualSolveCmd env).2 =
                preTrace env
                  ++ [CmdEvent.readSolFile, CmdEvent.deleteTmpFiles]
                  ++ (if r.status ≠ LpStatus.Infeasible then
                        [CmdEvent.assignVarsVals (some r.values),
                         CmdEvent.assignVarsDj (some r.reducedCosts),
                         CmdEvent.assignConsPi (some r.shadowPrices),
                         CmdEvent.assignConsSlack (some r.slacks)]
                      else [])
                  ++ [CmdEvent.assignStatus r.status] := by
              simp [actualSolveCmd, h1, h2, h3, hread]
            rw [hres]
            refine ⟨?_, ?_, ?_⟩ <;>
              · intro hmem
                simp only [List.mem_append, List.mem_cons, List.mem_singleton,
                  List.not_mem_nil, or_false] at hmem
                rcases hmem with ((hmem | hmem) | hmem) | hmem
                · rcases preTrace_events env _ hmem with
                    h | h | h | h | h | h | h <;> simp at h
                · rcases hmem with hmem | hmem <;> simp at hmem
                · split_ifs at hmem with hst
                  · simp only [List.mem_cons, List.mem_singleton,
                      List.not_mem_nil, or_false] at hmem
                    rcases hmem with hmem | hmem | hmem | hmem <;>
                      simp at hmem <;> (subst hmem; assumption)
                  · simp at hmem
                · simp at hmem
    · have hres : (actualSolveCmd env).2 = preTrace env := by
        simp [actualSolveCmd, h1, h2]
      rw [hres]
      refine ⟨?_, ?_, ?_⟩ <;>
        · intro hmem
          rcases preTrace_events env _ hmem with
            h | h | h | h | h | h | h <;> simp at h

/-- Claim C6: whenever the subprocess exits nonzero, `GUROBI_CMD.actualSolve`
raises `SolverExecutionFailed` and performs no result extraction: the solution
file is never read and no status, values, reduced costs, shadow prices or
slacks are assigned onto the problem. -/
theorem actualSolveCmd_nonzero_exit (env : CmdEnv)
    (hexe : env.exeOk = true) (hrc : env.returnCode ≠ 0) :
    actualSolveCmd env = (.error .executionFailed, preTrace env) ∧
    CmdEvent.readSolFile ∉ preTrace env ∧
    (∀ d, CmdEvent.assignVarsVals d ∉ preTrace env) ∧
    (∀ d, CmdEvent.assignVarsDj d ∉ preTrace env) ∧
    (∀ d, CmdEvent.assignConsPi d ∉ preTrace env) ∧
    (∀ d, CmdEvent.assignConsSlack d ∉ preTrace env) ∧
    (∀ st, CmdEvent.assignStatus st ∉ preTrace env) := by
  refine ⟨by simp [actualSolveCmd, hexe, hrc], ?_, ?_, ?_, ?_, ?_, ?_⟩
  · intro hmem
    rcases preTrace_events env _ hmem with h | h | h | h | h | h | h <;>
      simp at h
  · intro d hmem
    rcases preTrace_events env _ hmem with h | h | h | h | h | h | h <;>
      simp at h
  · intro d hmem
    rcases preTrace_events env _ hmem with h | h | h | h | h | h | h <;>
      simp at h
  · intro d hmem
    rcases preTrace_events env _ hmem with h | h | h | h | h | h | h <;>
      simp at h
  · intro d hmem
    rcases preTrace_events env _ hmem with h | h | h | h | h | h | h <;>
      simp at h
  · intro st hmem
    rcases preTrace_events env _ hmem with h | h | h | h | h | h | h <;>
      simp at h

/-- Witness for claim C6: a run with an available executable and exit code 1
raises, with only the setup events in the trace. -/
theorem actualSolveCmd_nonzero_exit_witness :
    actualSolveCmd ⟨true, true, false, true, false, 1, false, []⟩ =
      (.error .executionFailed,
       preTrace ⟨true, true, false, true, false, 1, false, []⟩) :=
  (actualSolveCmd_nonzero_exit ⟨true, true, false, true, false, 1, false, []⟩
    rfl (by decide)).1

/-- Claim C7 evidence: on the nonzero-exit failure path the opened null-device
pipe is closed, but `delete_tmp_files` is never reached -- the raise at
gurobi_api.py line 284 precedes the cleanup at line 292, so the temporary
problem, solution and warm-start files and the fixed log file are leaked. -/
theorem actualSolveCmd_leaks_tmp_on_failure :
    (actualSolveCmd ⟨true, false, true, true, true, 1, false, []⟩).1 =
      Except.error CmdError.executionFailed ∧
    CmdEvent.closePipe ∈
      (actualSolveCmd ⟨true, false, true, true, true, 1, false, []⟩).2 ∧
    CmdEvent.deleteTmpFiles ∉
      (actualSolveCmd ⟨true, false, true, true, true, 1, false, []⟩).2 :=
  ⟨rfl, by decide, by decide⟩

/-- Claim C9: `GUROBI_CMD.readsol` returns empty reduced costs, shadow prices
and slacks on every input it parses, and consequently every such dict that
`GUROBI_CMD.actualSolve` pushes onto the problem after a successful
command-line solve is empty. -/
theorem readsol_no_duals :
    (∀ (s : Str) (r : SolResult), readsol s = .ok r →
      r.reducedCosts = [] ∧ r.shadowPrices = [] ∧ r.slacks = []) ∧
    (∀ (env : CmdEnv) (d : List (Str × Str)),
      (CmdEvent.assignVarsDj (some d) ∈ (actualSolveCmd env).2 → d = []) ∧
      (CmdEvent.assignConsPi (some d) ∈ (actualSolveCmd env).2 → d = []) ∧
      (CmdEvent.assignConsSlack (some d) ∈ (actualSolveCmd env).2 → d = [])) :=
  ⟨readsol_result_fields, actualSolveCmd_some_assigns⟩

/-- Witness for claim C9: the parsed file `obj\nx 1` has empty reduced-cost,
shadow-price and slack mappings. -/
theorem readsol_no_duals_witness :
    (⟨LpStatus.Optimal, [(['x'], ['1'])], [], [], []⟩ :
        SolResult).reducedCosts = [] ∧
    (⟨LpStatus.Optimal, [(['x'], ['1'])], [], [], []⟩ :
        SolResult).shadowPrices = [] ∧
    (⟨LpStatus.Optimal, [(['x'], ['1'])], [], [], []⟩ :
        SolResult).slacks = [] :=
  readsol_no_duals.1 ['o', 'b', 'j', '\n', 'x', ' ', '1']
    ⟨LpStatus.Optimal, [(['x'], ['1'])], [], [], []⟩ rfl
